import Mathlib

/-!
# Verification of the chunked-transcription core (`src/transcription_service.py`)

Shallow embedding of the module `transcription_service.py`:

* `CHUNK_DURATION_MINUTES`, `split_audio`, `get_mime_type`, `transcribe_chunk`,
  `transcript` keep their source names.
* Audio is modelled by its duration in milliseconds; a `pydub` slice
  `audio[i : i + chunk_length_ms]` is modelled by its start offset and length
  (`AudioChunk`), exactly the data the slice carries that the algorithm uses.
* The speech-to-text HTTP collaborator (`requests.post` in `transcribe_chunk`)
  is modelled as a pure function `Backend` from the posted chunk and prompt to
  the response (`status_code`, `response.text`, parsed JSON payload).
* Segment timestamps (JSON numbers, seconds) are modelled as rationals.
  A transcription segment dict may carry further keys besides `timestamp` and
  `text` (confidence, metadata, ...); those are modelled opaquely by `extra`.
* Python exceptions become an explicit error type `PyError`.  Note that
  `requests.exceptions.RequestException` is a subclass of `IOError`, so the
  `except IOError` clause of `transcript` catches and re-wraps it; the
  re-wrapping of the `except` clauses is `wrapRunError`.
* Effects are made explicit: the run returns, next to its result, the list of
  backend calls it performed (`CallRecord`: chunk index, posted chunk, prompt,
  response), in order.
* `split_audio`'s loop `for i in range(0, len(audio), chunk_length_ms)` is
  written with an explicit fuel argument to make it structurally recursive;
  `durationMs` units of fuel are enough for every positive step
  (the Python loop raises `ValueError` on step 0, which is not modelled:
  every call in the repository uses the positive default step).
-/

/-- Source line 11: `CHUNK_DURATION_MINUTES = 10`. -/
def CHUNK_DURATION_MINUTES : Nat := 10

/-- The default of `split_audio`'s parameter
`chunk_length_ms: int = CHUNK_DURATION_MINUTES * 60 * 1000`. -/
def defaultChunkLengthMs : Nat := CHUNK_DURATION_MINUTES * 60 * 1000

/-- A `pydub` slice `audio[start : start + len]` of the decoded audio,
described by its start offset and its length, both in milliseconds. -/
structure AudioChunk where
  start : Nat
  len : Nat
deriving Repr, DecidableEq

/-- The loop of `split_audio`: `for i in range(0, len(audio), chunk_length_ms):
chunks.append(audio[i : i + chunk_length_ms])`.  `fuel` bounds the number of
iterations; the slice `audio[i : i + c]` of an audio of length `d` has length
`min (i + c) d - i`. -/
def splitAudioLoop (durationMs chunkLengthMs : Nat) : Nat → Nat → List AudioChunk
  | 0, _ => []
  | fuel + 1, i =>
    if i < durationMs then
      ⟨i, min (i + chunkLengthMs) durationMs - i⟩ ::
        splitAudioLoop durationMs chunkLengthMs fuel (i + chunkLengthMs)
    else []

/-- Source lines 34-52, `split_audio`: split an audio of the given duration
into consecutive slices of `chunkLengthMs` milliseconds (the last one
truncated at the end of the audio). -/
def split_audio (durationMs chunkLengthMs : Nat) : List AudioChunk :=
  splitAudioLoop durationMs chunkLengthMs durationMs 0

/-- One timestamped transcription segment, an element of the `"chunks"` list of
the backend's JSON payload: a dict with a two-element `"timestamp"` list,
a `"text"`, and possibly further keys (`extra`), which the stitcher never
touches. -/
structure Segment where
  timestamp : ℚ × ℚ
  text : String
  extra : List (String × String)
deriving Repr, DecidableEq

/-- The parsed JSON payload `response.json()` of one backend call:
a `"text"` and a `"chunks"` list of segments. -/
structure ChunkResult where
  text : String
  chunks : List Segment
deriving Repr, DecidableEq

/-- The observable part of one `requests.post` response: `status_code`,
the raw `response.text` (used in the error message), and the parsed payload
`response.json()`. -/
structure BackendResponse where
  status : Nat
  body : String
  payload : ChunkResult
deriving Repr, DecidableEq

/-- The speech-to-text collaborator: a function from the posted audio chunk and
prompt to the HTTP response. -/
abbrev Backend := AudioChunk → String → BackendResponse

/-- The Python exceptions that the module raises or re-wraps.
`requestError` stands for `requests.exceptions.RequestException`, which at
runtime is a subclass of `IOError`. -/
inductive PyError where
  | fileNotFound (msg : String)
  | valueError (msg : String)
  | requestError (msg : String)
  | permissionError (msg : String)
  | ioError (msg : String)
deriving Repr, DecidableEq

/-- The ambient state `get_mime_type` and `split_audio` consult: whether a path
exists (`os.path.exists`), what `mimetypes.guess_type` returns for it, and the
duration `len(AudioSegment.from_file(path))` of the decoded audio in
milliseconds. -/
structure FileSystem where
  pathExists : String → Bool
  mimeType : String → Option String
  audioDurationMs : String → Nat

/-- Source lines 13-31, `get_mime_type`: raise `FileNotFoundError` if the path
does not exist, `ValueError` if no MIME type can be guessed, else return the
guessed MIME type. -/
def get_mime_type (fs : FileSystem) (filePath : String) : Except PyError String :=
  if fs.pathExists filePath then
    match fs.mimeType filePath with
    | some mt => Except.ok mt
    | none => Except.error (.valueError ("Unsupported file type: " ++ filePath))
  else
    Except.error (.fileNotFound ("File not found: " ++ filePath))

/-- The Python string slice `s[-n:]`: the trailing `min n (length s)`
characters of `s`. -/
def lastChars (s : String) (n : Nat) : String := ⟨s.data.drop (s.data.length - n)⟩

/-- Python `str.strip()`: remove leading and trailing whitespace. -/
def pyStrip (s : String) : String :=
  ⟨(((s.data.dropWhile Char.isWhitespace).reverse.dropWhile Char.isWhitespace).reverse)⟩

/-- The fixed priming preamble of `transcribe_chunk` (source lines 74-77). -/
def promptPreamble : String :=
  "Bonjour, Voici un fichier audio d\x27une conference sur l\x27IA par quelqu\x27un qui travaille au rectorat de l\x27académie de Lyon. "

/-- Source lines 74-79: the prompt is the preamble, followed — when
`previous_text` is nonempty — by `f"Contexte précédent: {previous_text[-500:]}"`. -/
def makePrompt (previousText : String) : String :=
  if previousText = "" then promptPreamble
  else promptPreamble ++ "Contexte précédent: " ++ lastChars previousText 500

/-- Source lines 55-105, `transcribe_chunk`: build the prompt from
`previous_text`, post the chunk, raise `RequestException` with the status code
and response text unless the status is 200, else return the parsed payload. -/
def transcribe_chunk (backend : Backend) (chunk : AudioChunk) (previousText : String) :
    Except PyError ChunkResult :=
  let prompt := makePrompt previousText
  let response := backend chunk prompt
  if response.status = 200 then
    Except.ok response.payload
  else
    Except.error (.requestError ("Failed to transcribe audio chunk: " ++
      toString response.status ++ " - " ++ response.body))

/-- Source line 140: `time_offset = i * (CHUNK_DURATION_MINUTES * 60)`,
in seconds. -/
def timeOffset (i : Nat) : ℚ := ((i * (CHUNK_DURATION_MINUTES * 60) : Nat) : ℚ)

/-- Source lines 142-143: `chunk_data["timestamp"][0] += time_offset;
chunk_data["timestamp"][1] += time_offset` — every other key is untouched. -/
def offsetSegment (offset : ℚ) (s : Segment) : Segment :=
  { s with timestamp := (s.timestamp.1 + offset, s.timestamp.2 + offset) }

/-- The accumulator `combined_result = {"text": ..., "chunks": ...,
"language": ...}` of `transcript`. -/
structure CombinedResult where
  text : String
  chunks : List Segment
  language : String
deriving Repr, DecidableEq

/-- One backend call as performed by the run: the enumeration index `i` of the
chunk, the posted chunk, the prompt it was posted with, and the response. -/
structure CallRecord where
  index : Nat
  chunk : AudioChunk
  prompt : String
  response : BackendResponse
deriving Repr, DecidableEq

/-- Source lines 133-148, the chunk loop of `transcript`: transcribe each chunk
with the context of the previous ones, offset the returned timestamps by
`i * (CHUNK_DURATION_MINUTES * 60)`, append the segments and the stripped text
(with a single leading space), and pass the accumulated text on as context.
Returns the result together with the list of backend calls performed. -/
def runChunks (backend : Backend) : List AudioChunk → Nat → CombinedResult → String →
    Except PyError CombinedResult × List CallRecord
  | [], _, acc, _ => (Except.ok acc, [])
  | chunk :: rest, i, acc, previousText =>
    let callRec : CallRecord :=
      ⟨i, chunk, makePrompt previousText, backend chunk (makePrompt previousText)⟩
    match transcribe_chunk backend chunk previousText with
    | Except.error e => (Except.error e, [callRec])
    | Except.ok chunkResult =>
      let adjusted := chunkResult.chunks.map (offsetSegment (timeOffset i))
      let newText := acc.text ++ " " ++ pyStrip chunkResult.text
      let out := runChunks backend rest (i + 1)
        ⟨newText, acc.chunks ++ adjusted, acc.language⟩ newText
      (out.1, callRec :: out.2)

/-- Source lines 152-161, the `except` clauses of `transcript`.
`FileNotFoundError` and `PermissionError` are re-raised with a new message
naming the audio file; every remaining `IOError` — which includes
`requests.exceptions.RequestException`, a subclass of `IOError` — is re-raised
as `IOError(f"Error reading audio file {path}: {exc}")`.  `ValueError` matches
no clause and propagates unchanged. -/
def wrapRunError (audioFilePath : String) : PyError → PyError
  | .fileNotFound _ => .fileNotFound ("Audio file not found: " ++ audioFilePath)
  | .permissionError _ =>
    .permissionError ("Permission denied when accessing file: " ++ audioFilePath)
  | .requestError msg =>
    .ioError ("Error reading audio file " ++ audioFilePath ++ ": " ++ msg)
  | .ioError msg =>
    .ioError ("Error reading audio file " ++ audioFilePath ++ ": " ++ msg)
  | .valueError msg => .valueError msg

/-- Source lines 108-161, `transcript`: validate the path with `get_mime_type`,
split the audio with the default chunk length, run the chunk loop starting from
`{"text": "", "chunks": [], "language": "fr"}` and empty context, and re-wrap
errors per the `except` clauses.  Returns the result together with the list of
backend calls performed. -/
def transcript (fs : FileSystem) (backend : Backend) (audioFilePath : String) :
    Except PyError CombinedResult × List CallRecord :=
  let run :=
    match get_mime_type fs audioFilePath with
    | Except.error e => (Except.error e, [])
    | Except.ok _ =>
      runChunks backend (split_audio (fs.audioDurationMs audioFilePath) defaultChunkLengthMs)
        0 ⟨"", [], "fr"⟩ ""
  match run.1 with
  | Except.error e => (Except.error (wrapRunError audioFilePath e), run.2)
  | Except.ok r => (Except.ok r, run.2)

/-- The text one backend call contributes to `combined_result["text"]`
(source line 147): a separator space and the stripped returned text. -/
def contribText (callRec : CallRecord) : String :=
  " " ++ pyStrip callRec.response.payload.text

/-- The segments one backend call contributes to `combined_result["chunks"]`
(source lines 140-144): the returned segments, timestamps offset by the call
index times the chunk duration. -/
def contribSegs (callRec : CallRecord) : List Segment :=
  callRec.response.payload.chunks.map (offsetSegment (timeOffset callRec.index))

/-- The list of `start` timestamps of a segment list. -/
def startsOf (segs : List Segment) : List ℚ := segs.map (fun s => s.timestamp.1)

/-- The chunk loop of `transcript` as invoked by `transcript`: over the chunks
of the audio behind `audioFilePath`, from the empty accumulator and empty
context. -/
def transcriptRun (fs : FileSystem) (backend : Backend) (audioFilePath : String) :
    Except PyError CombinedResult × List CallRecord :=
  runChunks backend (split_audio (fs.audioDurationMs audioFilePath) defaultChunkLengthMs)
    0 ⟨"", [], "fr"⟩ ""

/-- The text accumulated in `combined_result["text"]` after the first `k`
backend calls of a run. -/
def accumulatedText (trace : List CallRecord) (k : Nat) : String :=
  (trace.take k).foldl (fun t c => t ++ contribText c) ""

instance {ε α : Type} [DecidableEq ε] [DecidableEq α] : DecidableEq (Except ε α)
  | Except.error a, Except.error b =>
    match decEq a b with
    | isTrue h => isTrue (by rw [h])
    | isFalse h => isFalse (fun hc => h (Except.error.inj hc))
  | Except.error _, Except.ok _ => isFalse (fun hc => Except.noConfusion hc)
  | Except.ok _, Except.error _ => isFalse (fun hc => Except.noConfusion hc)
  | Except.ok a, Except.ok b =>
    match decEq a b with
    | isTrue h => isTrue (by rw [h])
    | isFalse h => isFalse (fun hc => h (Except.ok.inj hc))

/-! ### Concrete fixtures used to instantiate the theorems -/

/-- A file system holding a 1 500 000 ms (25 min) audio file `talk.mp3`:
it splits into three chunks of 600 000, 600 000 and 300 000 ms. -/
def fsW : FileSystem :=
  ⟨fun p => p == "talk.mp3", fun _ => some "audio/mpeg", fun _ => 1500000⟩

/-- A backend that always succeeds, answering with a text naming the posted
chunk and no segments. -/
def backendW : Backend := fun chunk _ =>
  ⟨200, "", ⟨"chunk at " ++ toString chunk.start, []⟩⟩

/-- The combined result of running `transcript fsW backendW "talk.mp3"`. -/
def resW : CombinedResult :=
  ⟨" chunk at 0 chunk at 600000 chunk at 1200000", [], "fr"⟩

/-- The second backend call of `transcript fsW backendW "talk.mp3"`. -/
def callW1 : CallRecord :=
  ⟨1, ⟨600000, 600000⟩,
   promptPreamble ++ "Contexte précédent: " ++ " chunk at 0",
   ⟨200, "", ⟨"chunk at 600000", []⟩⟩⟩

/-- A backend that fails with HTTP 500 on the second chunk (start 600 000 ms)
of `talk.mp3` and succeeds elsewhere. -/
def backendFailSecond : Backend := fun chunk _ =>
  if chunk.start == 600000 then ⟨500, "boom", ⟨"", []⟩⟩
  else ⟨200, "", ⟨"ok", []⟩⟩

/-- A backend that fails with HTTP 500 on the third chunk (start 1 200 000 ms)
of `talk.mp3` and succeeds elsewhere. -/
def backendFailThird : Backend := fun chunk _ =>
  if chunk.start == 1200000 then ⟨500, "boom", ⟨"", []⟩⟩
  else ⟨200, "", ⟨"ok", []⟩⟩

/-- A file system holding a zero-duration audio file `empty.wav`. -/
def fsZero : FileSystem :=
  ⟨fun p => p == "empty.wav", fun _ => some "audio/x-wav", fun _ => 0⟩

/-- A file system on which no path exists. -/
def fsMissing : FileSystem := ⟨fun _ => false, fun _ => none, fun _ => 0⟩

/-! ## Lemmas about the chunker -/

/-- One step of the ceiling count `(m + C - 1) / C` of the loop. -/
theorem ceilStep (C m : Nat) (hC : 0 < C) (hm : 0 < m) :
    (m + C - 1) / C = (m - C + C - 1) / C + 1 := by
  rcases le_or_lt m C with h | h
  · have h1 : m + C - 1 = (m - 1) + C := by omega
    have h2 : m - C + C - 1 = C - 1 := by omega
    rw [h1, Nat.add_div_right _ hC, h2, Nat.div_eq_of_lt (by omega),
      Nat.div_eq_of_lt (by omega)]
  · have h1 : m + C - 1 = ((m - C) + C - 1) + C := by omega
    rw [h1, Nat.add_div_right _ hC]

/-- Closed form of the `split_audio` loop, provided the fuel dominates the
number of iterations. -/
theorem splitAudioLoop_closed (durationMs chunkLengthMs : Nat) (hC : 0 < chunkLengthMs) :
    ∀ fuel i, durationMs - i ≤ fuel * chunkLengthMs →
    splitAudioLoop durationMs chunkLengthMs fuel i =
      (List.range ((durationMs - i + chunkLengthMs - 1) / chunkLengthMs)).map
        (fun j => ⟨i + chunkLengthMs * j,
          min (i + chunkLengthMs * j + chunkLengthMs) durationMs
            - (i + chunkLengthMs * j)⟩) := by
  intro fuel
  induction fuel with
  | zero =>
    intro i h
    have h0 : durationMs - i = 0 := by simpa using h
    rw [h0, Nat.div_eq_of_lt (by omega), List.range_zero, List.map_nil]
    rfl
  | succ fuel ih =>
    intro i h
    by_cases hi : i < durationMs
    · have hrec := ih (i + chunkLengthMs) (by
        have hm : (fuel + 1) * chunkLengthMs = fuel * chunkLengthMs + chunkLengthMs := by
          ring
        omega)
      have hcount : (durationMs - i + chunkLengthMs - 1) / chunkLengthMs =
          (durationMs - (i + chunkLengthMs) + chunkLengthMs - 1) / chunkLengthMs + 1 := by
        have harg : durationMs - (i + chunkLengthMs) = durationMs - i - chunkLengthMs := by
          omega
        rw [harg]
        exact ceilStep chunkLengthMs (durationMs - i) hC (by omega)
      rw [hcount, List.range_succ_eq_map, List.map_cons, List.map_map]
      show splitAudioLoop durationMs chunkLengthMs (fuel + 1) i = _
      simp only [splitAudioLoop, if_pos hi, hrec]
      congr 1
      all_goals first
      | (simp; done)
      | (apply List.map_congr_left
         intro a _
         simp only [Function.comp_apply, Nat.succ_eq_add_one]
         have harith : i + chunkLengthMs * (a + 1) = i + chunkLengthMs + chunkLengthMs * a := by
           ring
         rw [harith])
    · have h0 : durationMs - i = 0 := by omega
      rw [h0, Nat.div_eq_of_lt (by omega), List.range_zero, List.map_nil]
      simp [splitAudioLoop, hi]

/-- Closed form of `split_audio`: chunk `j` is the slice starting at `C * j`. -/
theorem split_audio_closed (D C : Nat) (hC : 0 < C) :
    split_audio D C = (List.range ((D + C - 1) / C)).map
      (fun j => ⟨C * j, min (C * j + C) D - C * j⟩) := by
  have h := splitAudioLoop_closed D C hC D 0 (Nat.le_mul_of_pos_right D hC)
  simpa using h

/-- Sum of the chunk lengths of the first `n` slices. -/
theorem chunkLenSum (D C : Nat) :
    ∀ n, ((List.range n).map (fun j => min (C * j + C) D - C * j)).sum = min (C * n) D := by
  intro n
  induction n with
  | zero => simp
  | succ n ih =>
    rw [List.range_succ, List.map_append, List.sum_append, ih]
    have h1 : C * (n + 1) = C * n + C := by ring
    simp only [List.map_cons, List.map_nil, List.sum_cons, List.sum_nil]
    omega

/-- C2: for a source of duration `D > 0` ms and chunk duration `C > 0` ms,
`split_audio` returns exactly `⌈D / C⌉` chunks; chunk `k` is the slice
`[C * k, min (C * k + C) D)`, so the chunks are in ascending time order and
cover `[0, D)` consecutively with no gaps and no overlap; the lengths sum
exactly to `D`; no chunk is empty (in particular there is no trailing empty
chunk when `C` divides `D`, where the count is exactly `D / C`); and every
chunk except possibly the final one has length exactly `C`. -/
theorem chunker_partition (D C : Nat) (hD : 0 < D) (hC : 0 < C) :
    (split_audio D C).length = (D + C - 1) / C ∧
    (C ∣ D → (split_audio D C).length = D / C) ∧
    (∀ k, ∀ hk : k < (split_audio D C).length,
      (split_audio D C)[k] = ⟨C * k, min (C * k + C) D - C * k⟩) ∧
    ((split_audio D C).map AudioChunk.len).sum = D ∧
    (∀ chunk ∈ split_audio D C, 0 < chunk.len) ∧
    (∀ k, ∀ hk : k + 1 < (split_audio D C).length,
      (split_audio D C)[k].len = C ∧
      (split_audio D C)[k + 1].start =
        (split_audio D C)[k].start + (split_audio D C)[k].len) := by
  have hclosed := split_audio_closed D C hC
  have hq := Nat.div_add_mod (D + C - 1) C
  have hr : (D + C - 1) % C < C := Nat.mod_lt _ hC
  have hget : ∀ k, ∀ hk : k < (split_audio D C).length,
      (split_audio D C)[k] = ⟨C * k, min (C * k + C) D - C * k⟩ := by
    intro k hk
    have hk' : k < (D + C - 1) / C := by
      have hl : (split_audio D C).length = (D + C - 1) / C := by
        rw [hclosed]; simp
      omega
    simp only [hclosed, List.getElem_map, List.getElem_range]
  have hlen : (split_audio D C).length = (D + C - 1) / C := by
    rw [hclosed]; simp
  refine ⟨hlen, ?_, hget, ?_, ?_, ?_⟩
  · rintro ⟨q, rfl⟩
    rw [hlen]
    have h1 : C * q + C - 1 = (C - 1) + C * q := by omega
    rw [h1, Nat.add_mul_div_left _ _ hC, Nat.div_eq_of_lt (show C - 1 < C by omega),
      Nat.mul_div_cancel_left q hC]
    omega
  · rw [hclosed, List.map_map]
    have hs := chunkLenSum D C ((D + C - 1) / C)
    have hmap : (AudioChunk.len ∘ fun j => (⟨C * j, min (C * j + C) D - C * j⟩ : AudioChunk)) =
        fun j => min (C * j + C) D - C * j := rfl
    rw [hmap, hs]
    omega
  · intro chunk hmem
    rw [hclosed] at hmem
    simp only [List.mem_map, List.mem_range] at hmem
    obtain ⟨j, hj, rfl⟩ := hmem
    have hmul : C * (j + 1) ≤ C * ((D + C - 1) / C) := Nat.mul_le_mul_left C hj
    have hms : C * (j + 1) = C * j + C := by ring
    show 0 < min (C * j + C) D - C * j
    omega
  · intro k hk
    have hk1 : k < (split_audio D C).length := by omega
    rw [hget k hk1, hget (k + 1) hk]
    have hkq : k + 1 < (D + C - 1) / C := by omega
    have hmul : C * (k + 2) ≤ C * ((D + C - 1) / C) := Nat.mul_le_mul_left C hkq
    have hms : C * (k + 2) = C * k + C + C := by ring
    have hms1 : C * (k + 1) = C * k + C := by ring
    constructor
    · show min (C * k + C) D - C * k = C
      omega
    · show C * (k + 1) = C * k + (min (C * k + C) D - C * k)
      omega

/-! ## String helpers -/

theorem strJoinNil : String.join [] = "" := rfl

theorem strJoinCons (a : String) (l : List String) :
    String.join (a :: l) = a ++ String.join l := by
  apply String.ext
  simp [String.data_append]

/-! ## Unfolding lemmas for the chunk loop -/

/-- One successful iteration of the chunk loop. -/
theorem runChunks_cons_ok (backend : Backend) (chunk : AudioChunk) (rest : List AudioChunk)
    (i : Nat) (acc : CombinedResult) (previousText : String) (response : BackendResponse)
    (hresp : backend chunk (makePrompt previousText) = response)
    (hst : response.status = 200) :
    runChunks backend (chunk :: rest) i acc previousText =
      ((runChunks backend rest (i + 1)
          ⟨acc.text ++ " " ++ pyStrip response.payload.text,
           acc.chunks ++ response.payload.chunks.map (offsetSegment (timeOffset i)),
           acc.language⟩
          (acc.text ++ " " ++ pyStrip response.payload.text)).1,
       ⟨i, chunk, makePrompt previousText, response⟩ ::
         (runChunks backend rest (i + 1)
            ⟨acc.text ++ " " ++ pyStrip response.payload.text,
             acc.chunks ++ response.payload.chunks.map (offsetSegment (timeOffset i)),
             acc.language⟩
            (acc.text ++ " " ++ pyStrip response.payload.text)).2) := by
  subst hresp
  simp [runChunks, transcribe_chunk, hst]

/-- One failing iteration of the chunk loop. -/
theorem runChunks_cons_err (backend : Backend) (chunk : AudioChunk) (rest : List AudioChunk)
    (i : Nat) (acc : CombinedResult) (previousText : String) (response : BackendResponse)
    (hresp : backend chunk (makePrompt previousText) = response)
    (hst : ¬ response.status = 200) :
    runChunks backend (chunk :: rest) i acc previousText =
      (Except.error (.requestError ("Failed to transcribe audio chunk: " ++
         toString response.status ++ " - " ++ response.body)),
       [⟨i, chunk, makePrompt previousText, response⟩]) := by
  subst hresp
  simp [runChunks, transcribe_chunk, hst]

/-- A successful run of the chunk loop appends, to the accumulator, the joined
per-call text contributions and the flattened per-call segment contributions,
and every recorded backend call had status 200. -/
theorem runChunks_ok_spec (backend : Backend) :
    ∀ (chunks : List AudioChunk) (i : Nat) (acc : CombinedResult) (r : CombinedResult),
      (runChunks backend chunks i acc acc.text).1 = Except.ok r →
      r = ⟨acc.text ++ String.join ((runChunks backend chunks i acc acc.text).2.map contribText),
           acc.chunks ++ ((runChunks backend chunks i acc acc.text).2.map contribSegs).flatten,
           acc.language⟩ ∧
      ∀ call ∈ (runChunks backend chunks i acc acc.text).2, call.response.status = 200 := by
  intro chunks
  induction chunks with
  | nil =>
    intro i acc r h
    simp only [runChunks] at h ⊢
    obtain rfl : acc = r := Except.ok.inj h
    refine ⟨?_, by simp⟩
    cases acc with
    | mk t segs lang => simp [strJoinNil, String.append_empty]
  | cons chunk rest ih =>
    intro i acc r h
    by_cases hst : (backend chunk (makePrompt acc.text)).status = 200
    · rw [runChunks_cons_ok backend chunk rest i acc acc.text _ rfl hst] at h ⊢
      obtain ⟨hr, hall⟩ := ih (i + 1)
        ⟨acc.text ++ " " ++ pyStrip (backend chunk (makePrompt acc.text)).payload.text,
         acc.chunks ++ (backend chunk (makePrompt acc.text)).payload.chunks.map
           (offsetSegment (timeOffset i)),
         acc.language⟩ r h
      refine ⟨?_, ?_⟩
      · rw [hr]
        simp only [List.map_cons, strJoinCons, List.flatten_cons, CombinedResult.mk.injEq]
        refine ⟨?_, ?_, trivial⟩
        · apply String.ext
          simp [String.data_append, contribText]
        · simp [contribSegs, List.append_assoc]
      · intro call hcall
        rcases List.mem_cons.mp hcall with rfl | hm
        · exact hst
        · exact hall call hm
    · rw [runChunks_cons_err backend chunk rest i acc acc.text _ rfl hst] at h
      exact absurd h (by simp)

/-- If some recorded call of a chunk-loop run failed, the run's result is the
`RequestException` built from a failing recorded call's status and body. -/
theorem runChunks_err_spec (backend : Backend) :
    ∀ (chunks : List AudioChunk) (i : Nat) (acc : CombinedResult) (previousText : String),
      (∃ call ∈ (runChunks backend chunks i acc previousText).2,
        ¬ call.response.status = 200) →
      ∃ lastCall ∈ (runChunks backend chunks i acc previousText).2,
        ¬ lastCall.response.status = 200 ∧
        (runChunks backend chunks i acc previousText).1 = Except.error (.requestError
          ("Failed to transcribe audio chunk: " ++ toString lastCall.response.status ++
            " - " ++ lastCall.response.body)) := by
  intro chunks
  induction chunks with
  | nil =>
    intro i acc previousText h
    simp only [runChunks] at h
    obtain ⟨call, hmem, _⟩ := h
    exact absurd hmem (by simp)
  | cons chunk rest ih =>
    intro i acc previousText h
    by_cases hst : (backend chunk (makePrompt previousText)).status = 200
    · rw [runChunks_cons_ok backend chunk rest i acc previousText _ rfl hst] at h ⊢
      obtain ⟨call, hmem, hbad⟩ := h
      rcases List.mem_cons.mp hmem with rfl | hm
      · exact absurd hst hbad
      · obtain ⟨lastCall, hlmem, hlbad, hres⟩ := ih (i + 1) _ _ ⟨call, hm, hbad⟩
        exact ⟨lastCall, List.mem_cons_of_mem _ hlmem, hlbad, hres⟩
    · rw [runChunks_cons_err backend chunk rest i acc previousText _ rfl hst]
      exact ⟨⟨i, chunk, makePrompt previousText, backend chunk (makePrompt previousText)⟩,
        by simp, hst, rfl⟩


/-- The `k`-th recorded call of a chunk-loop run started at index `i` has
index `i + k`: calls are recorded in chunk order. -/
theorem runChunks_indices (backend : Backend) :
    ∀ (chunks : List AudioChunk) (i : Nat) (acc : CombinedResult) (previousText : String)
      (k : Nat) (call : CallRecord),
      (runChunks backend chunks i acc previousText).2[k]? = some call →
      call.index = i + k := by
  intro chunks
  induction chunks with
  | nil =>
    intro i acc previousText k call h
    simp [runChunks] at h
  | cons chunk rest ih =>
    intro i acc previousText k call h
    by_cases hst : (backend chunk (makePrompt previousText)).status = 200
    · rw [runChunks_cons_ok backend chunk rest i acc previousText _ rfl hst] at h
      cases k with
      | zero =>
        simp only [List.getElem?_cons_zero, Option.some.injEq] at h
        subst h
        simp
      | succ k =>
        simp only [List.getElem?_cons_succ] at h
        have := ih (i + 1) _ _ k call h
        omega
    · rw [runChunks_cons_err backend chunk rest i acc previousText _ rfl hst] at h
      cases k with
      | zero =>
        simp only [List.getElem?_cons_zero, Option.some.injEq] at h
        subst h
        simp
      | succ k =>
        simp at h

/-- A successful chunk-loop run posts exactly the chunks it was given,
in order. -/
theorem runChunks_calls (backend : Backend) :
    ∀ (chunks : List AudioChunk) (i : Nat) (acc : CombinedResult) (previousText : String)
      (r : CombinedResult),
      (runChunks backend chunks i acc previousText).1 = Except.ok r →
      (runChunks backend chunks i acc previousText).2.map (fun call => call.chunk) = chunks := by
  intro chunks
  induction chunks with
  | nil =>
    intro i acc previousText r _
    simp [runChunks]
  | cons chunk rest ih =>
    intro i acc previousText r h
    by_cases hst : (backend chunk (makePrompt previousText)).status = 200
    · rw [runChunks_cons_ok backend chunk rest i acc previousText _ rfl hst] at h ⊢
      simp only [List.map_cons]
      rw [ih (i + 1) _ _ r h]
    · rw [runChunks_cons_err backend chunk rest i acc previousText _ rfl hst] at h
      exact absurd h (by simp)

/-- The prompt of the `k`-th recorded backend call of a chunk-loop run started
with context equal to the accumulated text: it is `makePrompt` of the text
accumulated over the preceding calls — the stored context is the full
accumulated text, the 500-character truncation happens inside `makePrompt`. -/
theorem runChunks_prompts (backend : Backend) :
    ∀ (chunks : List AudioChunk) (i : Nat) (acc : CombinedResult)
      (k : Nat) (call : CallRecord),
      (runChunks backend chunks i acc acc.text).2[k]? = some call →
      call.prompt = makePrompt
        (((runChunks backend chunks i acc acc.text).2.take k).foldl
          (fun t c => t ++ contribText c) acc.text) := by
  intro chunks
  induction chunks with
  | nil =>
    intro i acc k call h
    simp [runChunks] at h
  | cons chunk rest ih =>
    intro i acc k call h
    by_cases hst : (backend chunk (makePrompt acc.text)).status = 200
    · rw [runChunks_cons_ok backend chunk rest i acc acc.text _ rfl hst] at h ⊢
      cases k with
      | zero =>
        simp only [List.getElem?_cons_zero, Option.some.injEq] at h
        subst h
        simp
      | succ k =>
        simp only [List.getElem?_cons_succ] at h
        have hih := ih (i + 1)
          ⟨acc.text ++ " " ++ pyStrip (backend chunk (makePrompt acc.text)).payload.text,
           acc.chunks ++ (backend chunk (makePrompt acc.text)).payload.chunks.map
             (offsetSegment (timeOffset i)),
           acc.language⟩ k call h
        rw [hih]
        congr 1
        rw [List.take_succ_cons, List.foldl_cons]
        congr 1
        apply String.ext
        simp [contribText, String.data_append]
    · rw [runChunks_cons_err backend chunk rest i acc acc.text _ rfl hst] at h ⊢
      cases k with
      | zero =>
        simp only [List.getElem?_cons_zero, Option.some.injEq] at h
        subst h
        simp
      | succ k =>
        simp at h

theorem timeOffset_succ (i : Nat) :
    timeOffset (i + 1) = timeOffset i + ((CHUNK_DURATION_MINUTES * 60 : Nat) : ℚ) := by
  unfold timeOffset
  push_cast
  ring

theorem startsOf_append (a b : List Segment) :
    startsOf (a ++ b) = startsOf a ++ startsOf b := by
  simp [startsOf]

theorem startsOf_offset (c : ℚ) (l : List Segment) :
    startsOf (l.map (offsetSegment c)) = (startsOf l).map (fun x => x + c) := by
  simp only [startsOf, List.map_map]
  apply List.map_congr_left
  intro s _
  rfl

/-- Sortedness of a successful run: if, per recorded call, the returned local
`start`s are non-decreasing and lie in `[0, CHUNK_DURATION_MINUTES * 60]`,
and the accumulator is sorted with all starts at most the next offset, then
the final segment list is sorted by `start`. -/
theorem runChunks_sorted (backend : Backend) :
    ∀ (chunks : List AudioChunk) (i : Nat) (acc : CombinedResult) (r : CombinedResult),
      (runChunks backend chunks i acc acc.text).1 = Except.ok r →
      (∀ call ∈ (runChunks backend chunks i acc acc.text).2,
        List.Pairwise (· ≤ ·) (startsOf call.response.payload.chunks) ∧
        ∀ s ∈ call.response.payload.chunks,
          0 ≤ s.timestamp.1 ∧ s.timestamp.1 ≤ ((CHUNK_DURATION_MINUTES * 60 : Nat) : ℚ)) →
      List.Pairwise (· ≤ ·) (startsOf acc.chunks) →
      (∀ x ∈ startsOf acc.chunks, x ≤ timeOffset i) →
      List.Pairwise (· ≤ ·) (startsOf r.chunks) := by
  intro chunks
  induction chunks with
  | nil =>
    intro i acc r h _ hsorted _
    simp only [runChunks] at h
    obtain rfl : acc = r := Except.ok.inj h
    exact hsorted
  | cons chunk rest ih =>
    intro i acc r h hcalls hsorted hbound
    by_cases hst : (backend chunk (makePrompt acc.text)).status = 200
    · rw [runChunks_cons_ok backend chunk rest i acc acc.text _ rfl hst] at h hcalls
      have hhead := hcalls ⟨i, chunk, makePrompt acc.text,
        backend chunk (makePrompt acc.text)⟩ (List.mem_cons_self _ _)
      have htail : ∀ call ∈ (runChunks backend rest (i + 1)
          ⟨acc.text ++ " " ++ pyStrip (backend chunk (makePrompt acc.text)).payload.text,
           acc.chunks ++ (backend chunk (makePrompt acc.text)).payload.chunks.map
             (offsetSegment (timeOffset i)),
           acc.language⟩
          (acc.text ++ " " ++ pyStrip (backend chunk (makePrompt acc.text)).payload.text)).2,
          List.Pairwise (· ≤ ·) (startsOf call.response.payload.chunks) ∧
          ∀ s ∈ call.response.payload.chunks,
            0 ≤ s.timestamp.1 ∧ s.timestamp.1 ≤ ((CHUNK_DURATION_MINUTES * 60 : Nat) : ℚ) :=
        fun call hm => hcalls call (List.mem_cons_of_mem _ hm)
      refine ih (i + 1)
        ⟨acc.text ++ " " ++ pyStrip (backend chunk (makePrompt acc.text)).payload.text,
         acc.chunks ++ (backend chunk (makePrompt acc.text)).payload.chunks.map
           (offsetSegment (timeOffset i)),
         acc.language⟩ r h htail ?_ ?_
      · show List.Pairwise (· ≤ ·) (startsOf (acc.chunks ++
          (backend chunk (makePrompt acc.text)).payload.chunks.map
            (offsetSegment (timeOffset i))))
        rw [startsOf_append, List.pairwise_append]
        refine ⟨hsorted, ?_, ?_⟩
        · rw [startsOf_offset]
          exact List.Pairwise.map _ (fun a b hab => by linarith) hhead.1
        · intro x hx y hy
          rw [startsOf_offset] at hy
          obtain ⟨y0, hy0, rfl⟩ := List.mem_map.mp hy
          obtain ⟨s, hs, rfl⟩ := List.mem_map.mp hy0
          have hxle := hbound x hx
          have hsle := (hhead.2 s hs).1
          linarith
      · show ∀ x ∈ startsOf (acc.chunks ++
          (backend chunk (makePrompt acc.text)).payload.chunks.map
            (offsetSegment (timeOffset i))), x ≤ timeOffset (i + 1)
        intro x hx
        rw [startsOf_append, List.mem_append] at hx
        have hcast : (0 : ℚ) ≤ ((CHUNK_DURATION_MINUTES * 60 : Nat) : ℚ) := by positivity
        rcases hx with hx | hx
        · have := hbound x hx
          rw [timeOffset_succ]
          linarith
        · rw [startsOf_offset] at hx
          obtain ⟨y0, hy0, rfl⟩ := List.mem_map.mp hx
          obtain ⟨s, hs, rfl⟩ := List.mem_map.mp hy0
          have := (hhead.2 s hs).2
          rw [timeOffset_succ]
          linarith
    · rw [runChunks_cons_err backend chunk rest i acc acc.text _ rfl hst] at h
      exact absurd h (by simp)

theorem initAcc_text : (⟨"", [], "fr"⟩ : CombinedResult).text = "" := rfl

/-- A successful `transcript` comes from a successful chunk-loop run, with the
same call trace. -/
theorem transcript_ok_elim (fs : FileSystem) (backend : Backend) (path : String)
    (r : CombinedResult) (h : (transcript fs backend path).1 = Except.ok r) :
    (transcriptRun fs backend path).1 = Except.ok r ∧
    (transcript fs backend path).2 = (transcriptRun fs backend path).2 := by
  cases hm : get_mime_type fs path with
  | error e =>
    simp only [transcript, hm] at h
    exact absurd h (by simp)
  | ok mt =>
    simp only [transcript, hm, transcriptRun] at h ⊢
    cases hrun : (runChunks backend (split_audio (fs.audioDurationMs path) defaultChunkLengthMs)
        0 ⟨"", [], "fr"⟩ "").1 with
    | error e =>
      rw [hrun] at h
      exact absurd h (by simp)
    | ok r' =>
      rw [hrun] at h
      exact ⟨h, rfl⟩

/-- With a valid path, `transcript` records the same backend calls as its
chunk loop. -/
theorem transcript_trace_eq (fs : FileSystem) (backend : Backend) (path : String)
    (mt : String) (hm : get_mime_type fs path = Except.ok mt) :
    (transcript fs backend path).2 = (transcriptRun fs backend path).2 := by
  simp only [transcript, hm, transcriptRun]
  cases hrun : (runChunks backend (split_audio (fs.audioDurationMs path) defaultChunkLengthMs)
      0 ⟨"", [], "fr"⟩ "").1 with
  | error e => rfl
  | ok r' => rfl

/-- With a valid path, a failed chunk-loop run surfaces through `transcript`
re-wrapped by the `except` clauses. -/
theorem transcript_err_elim (fs : FileSystem) (backend : Backend) (path : String)
    (mt : String) (hm : get_mime_type fs path = Except.ok mt)
    (e : PyError) (he : (transcriptRun fs backend path).1 = Except.error e) :
    (transcript fs backend path).1 = Except.error (wrapRunError path e) := by
  simp only [transcript, hm, transcriptRun] at he ⊢
  rw [he]

/-- If `transcript` performed any backend call, the path validation succeeded. -/
theorem transcript_trace_mime (fs : FileSystem) (backend : Backend) (path : String)
    (h : (transcript fs backend path).2 ≠ []) :
    ∃ mt, get_mime_type fs path = Except.ok mt := by
  cases hm : get_mime_type fs path with
  | error e =>
    exfalso
    apply h
    simp only [transcript, hm]
  | ok mt => exact ⟨mt, rfl⟩

/-- Folding the text contributions from a base string appends their join. -/
theorem foldlContrib_eq_join (l : List CallRecord) :
    ∀ a : String, l.foldl (fun t c => t ++ contribText c) a =
      a ++ String.join (l.map contribText) := by
  induction l with
  | nil =>
    intro a
    simp [strJoinNil, String.append_empty]
  | cons c l ih =>
    intro a
    rw [List.foldl_cons, ih, List.map_cons, strJoinCons]
    apply String.ext
    simp [String.data_append]

/-- After at least one backend call, the accumulated text is nonempty (each
call contributes at least the separator space). -/
theorem accumulatedText_ne (trace : List CallRecord) (k : Nat) (h0 : 0 < k)
    (hk : k ≤ trace.length) : accumulatedText trace k ≠ "" := by
  intro hempty
  have hdata := congrArg String.data hempty
  rw [accumulatedText, foldlContrib_eq_join] at hdata
  cases htake : trace.take k with
  | nil =>
    have hlen : (trace.take k).length = k := by
      rw [List.length_take]
      omega
    rw [htake] at hlen
    simp at hlen
    omega
  | cons c cs =>
    rw [htake] at hdata
    have hsp : (" " : String).data = [' '] := rfl
    simp [String.data_append, contribText, strJoinCons, hsp] at hdata

/-- The offset applied to the first chunk is zero: its timestamps are
unchanged. -/
theorem offsetSegment_zero (s : Segment) : offsetSegment (timeOffset 0) s = s := by
  cases s with
  | mk ts t e => simp [offsetSegment, timeOffset]

/-! ## Claim theorems -/

/-- C2 witness at `D = 1500`, `C = 600`: three chunks, lengths summing to
`1500`. -/
theorem chunker_partition_witness :
    (0 < 1500 ∧ 0 < 600) ∧
    (split_audio 1500 600).length = 3 ∧
    ((split_audio 1500 600).map AudioChunk.len).sum = 1500 :=
  ⟨⟨by decide, by decide⟩, by decide,
   (chunker_partition 1500 600 (by decide) (by decide)).2.2.2.1⟩

/-- C7: calling `transcript` on a path that does not exist raises
`FileNotFoundError` re-wrapped with the audio file identity
(`"Audio file not found: <path>"`), no backend call is made (the trace is
empty: the failure happens before any chunk is transcribed), and no partial
result is produced. -/
theorem missing_file_fails_fast (fs : FileSystem) (backend : Backend) (path : String)
    (h : fs.pathExists path = false) :
    (transcript fs backend path).1 =
      Except.error (.fileNotFound ("Audio file not found: " ++ path)) ∧
    (transcript fs backend path).2 = [] := by
  have hm : get_mime_type fs path =
      Except.error (.fileNotFound ("File not found: " ++ path)) := by
    simp [get_mime_type, h]
  constructor
  · simp [transcript, hm, wrapRunError]
  · simp [transcript, hm]

/-- C7 witness: a concrete missing file. -/
theorem missing_file_fails_fast_witness :
    fsMissing.pathExists "ghost.mp3" = false ∧
    (transcript fsMissing backendW "ghost.mp3").1 =
      Except.error (.fileNotFound ("Audio file not found: " ++ "ghost.mp3")) ∧
    (transcript fsMissing backendW "ghost.mp3").2 = [] :=
  ⟨rfl, (missing_file_fails_fast fsMissing backendW "ghost.mp3" rfl).1,
   (missing_file_fails_fast fsMissing backendW "ghost.mp3" rfl).2⟩

/-- C8 counterexample: a zero-duration source does NOT signal any error —
`split_audio` returns the empty chunk sequence and the whole run returns
successfully with the empty combined result (there is no `InvalidAudioError`
anywhere in the code). -/
theorem zero_duration_no_error :
    split_audio 0 600000 = [] ∧
    (transcript fsZero backendW "empty.wav").1 = Except.ok ⟨"", [], "fr"⟩ ∧
    (transcript fsZero backendW "empty.wav").2 = [] := by
  refine ⟨rfl, ?_, ?_⟩ <;> decide

/-- C8 (amended): a source that decodes to zero duration produces an empty
chunk sequence, and `transcript` on it returns the empty combined transcript
`{"text": "", "chunks": [], "language": "fr"}` without error and without any
backend call.  (An undecodable source raises the audio library's own error
inside `AudioSegment.from_file`, outside the modelled core.) -/
theorem zero_duration_empty_chunks (C : Nat) (fs : FileSystem) (backend : Backend)
    (path : String) (hdur : fs.audioDurationMs path = 0)
    (hex : fs.pathExists path = true) (mt : String) (hmt : fs.mimeType path = some mt) :
    split_audio 0 C = [] ∧
    (transcript fs backend path).1 = Except.ok ⟨"", [], "fr"⟩ ∧
    (transcript fs backend path).2 = [] := by
  have hm : get_mime_type fs path = Except.ok mt := by
    simp [get_mime_type, hex, hmt]
  refine ⟨rfl, ?_, ?_⟩ <;>
    simp [transcript, hm, hdur, split_audio, splitAudioLoop, runChunks]

/-- C8 amended-claim witness: the concrete zero-duration file `empty.wav`. -/
theorem zero_duration_empty_chunks_witness :
    fsZero.audioDurationMs "empty.wav" = 0 ∧
    (transcript fsZero backendW "empty.wav").1 = Except.ok ⟨"", [], "fr"⟩ :=
  ⟨rfl, (zero_duration_empty_chunks 600000 fsZero backendW "empty.wav" rfl rfl
    "audio/x-wav" rfl).2.1⟩

/-- C10: the timestamp offset applied to chunk `i` is always `i * 600` seconds,
computed from the module constant `CHUNK_DURATION_MINUTES = 10` alone — it
takes no account of the actual durations of the preceding chunks.  It agrees
with the splitting stride because `transcript` always calls `split_audio` with
the same constant's default chunk length (`600 * 1000` ms): a successful run
posts exactly the chunks of `split_audio` with that default. -/
theorem fixed_offset_constant :
    (∀ i : Nat, timeOffset i = ((i * 600 : Nat) : ℚ)) ∧
    CHUNK_DURATION_MINUTES = 10 ∧
    defaultChunkLengthMs = CHUNK_DURATION_MINUTES * 60 * 1000 ∧
    defaultChunkLengthMs = 600 * 1000 ∧
    ∀ (fs : FileSystem) (backend : Backend) (path : String) (r : CombinedResult),
      (transcript fs backend path).1 = Except.ok r →
      (transcript fs backend path).2.map (fun call => call.chunk) =
        split_audio (fs.audioDurationMs path) defaultChunkLengthMs := by
  refine ⟨?_, rfl, rfl, rfl, ?_⟩
  · intro i
    simp [timeOffset, CHUNK_DURATION_MINUTES]
  · intro fs backend path r h
    obtain ⟨hrun, htr⟩ := transcript_ok_elim fs backend path r h
    rw [htr]
    simp only [transcriptRun]
    exact runChunks_calls backend _ 0 _ "" r hrun

set_option maxRecDepth 1000000 in
/-- C10 witness: offsets `0` and `1200` s for chunks `0` and `2`, and the
concrete three-chunk run posts exactly the chunks of `split_audio`. -/
theorem fixed_offset_constant_witness :
    timeOffset 2 = ((2 * 600 : Nat) : ℚ) ∧
    (transcript fsW backendW "talk.mp3").1 = Except.ok resW ∧
    (transcript fsW backendW "talk.mp3").2.map (fun call => call.chunk) =
      split_audio (fsW.audioDurationMs "talk.mp3") defaultChunkLengthMs :=
  ⟨fixed_offset_constant.1 2, by decide,
   fixed_offset_constant.2.2.2.2 fsW backendW "talk.mp3" resW (by decide)⟩

set_option maxRecDepth 1000000 in
/-- C6 counterexample: the error raised on a backend failure does NOT wrap the
chunk index.  Two runs over the same three-chunk file, one failing at chunk
index 1 (after 2 backend calls) and one failing at chunk index 2 (after 3
backend calls) with the same status and body, raise exactly the same
exception — an `IOError` wrapping only the file path, the status and the
response body — so the raised error cannot identify the failing chunk. -/
theorem backend_error_not_indexed :
    (transcript fsW backendFailSecond "talk.mp3").1 =
      (transcript fsW backendFailThird "talk.mp3").1 ∧
    (transcript fsW backendFailSecond "talk.mp3").2.length = 2 ∧
    (transcript fsW backendFailThird "talk.mp3").2.length = 3 ∧
    (transcript fsW backendFailSecond "talk.mp3").1 = Except.error (.ioError
      ("Error reading audio file " ++ "talk.mp3" ++ ": " ++
       ("Failed to transcribe audio chunk: " ++ toString 500 ++ " - " ++ "boom"))) := by
  refine ⟨?_, ?_, ?_, ?_⟩ <;> decide

set_option maxRecDepth 1000000 in
/-- C6 (amended): if the backend answers some chunk of the run with a
non-success status, the whole run raises — `requests.RequestException` is an
`IOError`, so `transcript`'s `except IOError` clause re-raises it as an
`IOError` wrapping the audio path, the backend status and the response body
(but not the chunk index) — and no combined transcript is returned. -/
theorem backend_failure_aborts (fs : FileSystem) (backend : Backend) (path : String)
    (call : CallRecord) (hmem : call ∈ (transcript fs backend path).2)
    (hbad : ¬ call.response.status = 200) :
    (∃ lastCall ∈ (transcript fs backend path).2,
      ¬ lastCall.response.status = 200 ∧
      (transcript fs backend path).1 = Except.error (.ioError
        ("Error reading audio file " ++ path ++ ": " ++
         ("Failed to transcribe audio chunk: " ++ toString lastCall.response.status ++
          " - " ++ lastCall.response.body)))) ∧
    ∀ r : CombinedResult, ¬ (transcript fs backend path).1 = Except.ok r := by
  have hne : (transcript fs backend path).2 ≠ [] := List.ne_nil_of_mem hmem
  obtain ⟨mt, hm⟩ := transcript_trace_mime fs backend path hne
  have htr := transcript_trace_eq fs backend path mt hm
  rw [htr] at hmem
  obtain ⟨lastCall, hlmem, hlbad, hres⟩ :=
    runChunks_err_spec backend _ 0 _ "" ⟨call, hmem, hbad⟩
  have hwrap := transcript_err_elim fs backend path mt hm _ hres
  constructor
  · refine ⟨lastCall, ?_, hlbad, ?_⟩
    · rw [htr]
      exact hlmem
    · rw [hwrap]
      rfl
  · intro r hok
    rw [hwrap] at hok
    exact Except.noConfusion hok

set_option maxRecDepth 1000000 in
/-- C6 amended-claim witness: the concrete run failing at chunk index 1. -/
theorem backend_failure_aborts_witness :
    (∃ call ∈ (transcript fsW backendFailSecond "talk.mp3").2,
      ¬ call.response.status = 200) ∧
    ∀ r : CombinedResult,
      ¬ (transcript fsW backendFailSecond "talk.mp3").1 = Except.ok r := by
  have hmem : (⟨1, ⟨600000, 600000⟩, makePrompt " ok",
      ⟨500, "boom", ⟨"", []⟩⟩⟩ : CallRecord) ∈
      (transcript fsW backendFailSecond "talk.mp3").2 := by decide
  exact ⟨⟨_, hmem, by decide⟩,
    (backend_failure_aborts fsW backendFailSecond "talk.mp3" _ hmem (by decide)).2⟩

/-- Consolidated success spec of `transcript`: the combined text is the join
of per-call text contributions, the combined segments the concatenation of
per-call offset-adjusted segment contributions, the language `"fr"`, and every
recorded call had status 200. -/
theorem transcript_ok_spec (fs : FileSystem) (backend : Backend) (path : String)
    (r : CombinedResult) (h : (transcript fs backend path).1 = Except.ok r) :
    r.text = String.join ((transcript fs backend path).2.map contribText) ∧
    r.chunks = ((transcript fs backend path).2.map contribSegs).flatten ∧
    r.language = "fr" ∧
    ∀ call ∈ (transcript fs backend path).2, call.response.status = 200 := by
  obtain ⟨hrun, htr⟩ := transcript_ok_elim fs backend path r h
  obtain ⟨hr, hall⟩ := runChunks_ok_spec backend
    (split_audio (fs.audioDurationMs path) defaultChunkLengthMs) 0 ⟨"", [], "fr"⟩ r hrun
  rw [htr]
  refine ⟨?_, ?_, ?_, ?_⟩
  · rw [hr]
    exact String.empty_append _
  · rw [hr]
    exact List.nil_append _
  · rw [hr]
  · exact hall

theorem listGetElemSomeLt {α : Type} (l : List α) (k : Nat) (a : α)
    (h : l[k]? = some a) : k < l.length := by
  by_contra hn
  push_neg at hn
  rw [List.getElem?_eq_none hn] at h
  cases h

/-- The `k`-th backend call of a `transcript` run carries chunk index `k`. -/
theorem transcript_indices (fs : FileSystem) (backend : Backend) (path : String)
    (k : Nat) (call : CallRecord)
    (h : (transcript fs backend path).2[k]? = some call) : call.index = k := by
  have hne : (transcript fs backend path).2 ≠ [] := by
    intro hnil
    rw [hnil] at h
    cases h
  obtain ⟨mt, hm⟩ := transcript_trace_mime fs backend path hne
  have htr := transcript_trace_eq fs backend path mt hm
  rw [htr] at h
  have := runChunks_indices backend
    (split_audio (fs.audioDurationMs path) defaultChunkLengthMs) 0 ⟨"", [], "fr"⟩ ""
    k call h
  simpa using this

/-- The `k`-th backend call of a `transcript` run is prompted with `makePrompt`
of the full accumulated text of the preceding calls. -/
theorem transcript_prompts (fs : FileSystem) (backend : Backend) (path : String)
    (k : Nat) (call : CallRecord)
    (h : (transcript fs backend path).2[k]? = some call) :
    call.prompt = makePrompt (accumulatedText (transcript fs backend path).2 k) := by
  have hne : (transcript fs backend path).2 ≠ [] := by
    intro hnil
    rw [hnil] at h
    cases h
  obtain ⟨mt, hm⟩ := transcript_trace_mime fs backend path hne
  have htr := transcript_trace_eq fs backend path mt hm
  rw [htr] at h ⊢
  exact runChunks_prompts backend
    (split_audio (fs.audioDurationMs path) defaultChunkLengthMs) 0 ⟨"", [], "fr"⟩
    k call h

/-- Mapping the zero offset over a segment list changes nothing. -/
theorem map_offsetSegment_zero (l : List Segment) :
    List.map (offsetSegment (timeOffset 0)) l = l := by
  have h : List.map (offsetSegment (timeOffset 0)) l = List.map id l :=
    List.map_congr_left (fun s _ => offsetSegment_zero s)
  rw [h, List.map_id]

/-- C1: in a successful run, the combined segment list is the concatenation of
the per-call contributions; the `k`-th backend call has chunk index `k`, its
offset is `k * 600` seconds (`k ×` the chunk duration), and each of its
segments is appended with global start and end equal to the chunk-local values
plus that offset; for a source producing exactly one chunk, the offset is 0
and the segments are appended with timestamps unchanged. -/
theorem global_timestamps (fs : FileSystem) (backend : Backend) (path : String)
    (r : CombinedResult) (h : (transcript fs backend path).1 = Except.ok r) :
    r.chunks = ((transcript fs backend path).2.map contribSegs).flatten ∧
    (∀ k call, (transcript fs backend path).2[k]? = some call →
      call.index = k ∧
      timeOffset k = ((k * 600 : Nat) : ℚ) ∧
      contribSegs call = call.response.payload.chunks.map (offsetSegment (timeOffset k)) ∧
      ∀ s ∈ call.response.payload.chunks,
        offsetSegment (timeOffset k) s =
          ⟨(s.timestamp.1 + ((k * 600 : Nat) : ℚ),
            s.timestamp.2 + ((k * 600 : Nat) : ℚ)), s.text, s.extra⟩) ∧
    (∀ call, (transcript fs backend path).2 = [call] →
      r.chunks = call.response.payload.chunks) := by
  obtain ⟨htext, hchunks, hlang, hall⟩ := transcript_ok_spec fs backend path r h
  refine ⟨hchunks, ?_, ?_⟩
  · intro k call hcall
    have hidx := transcript_indices fs backend path k call hcall
    have ht : timeOffset k = ((k * 600 : Nat) : ℚ) := by
      simp [timeOffset, CHUNK_DURATION_MINUTES]
    refine ⟨hidx, ht, ?_, ?_⟩
    · simp [contribSegs, hidx]
    · intro s _
      rw [ht]
      rfl
  · intro call htrace
    rw [hchunks, htrace]
    simp only [List.map_cons, List.map_nil, List.flatten_cons, List.flatten_nil,
      List.append_nil]
    have hidx : call.index = 0 := by
      apply transcript_indices fs backend path 0 call
      rw [htrace]
      rfl
    simp only [contribSegs, hidx]
    exact map_offsetSegment_zero _

set_option maxRecDepth 1000000 in
/-- C1 witness: the concrete three-chunk run. -/
theorem global_timestamps_witness :
    (transcript fsW backendW "talk.mp3").1 = Except.ok resW ∧
    resW.chunks = ((transcript fsW backendW "talk.mp3").2.map contribSegs).flatten :=
  ⟨by decide, (global_timestamps fsW backendW "talk.mp3" resW (by decide)).1⟩

/-- C4: in a successful run, the combined `full_text` is the concatenation, in
chunk order, of `" " ++ pyStrip text` for each chunk's returned `text` — one
leading separator space per chunk; for a single-chunk source the result text
is exactly `" " ++ pyStrip text` with the timestamp offset `timeOffset 0 = 0`
applied (segments unchanged). -/
theorem combined_text (fs : FileSystem) (backend : Backend) (path : String)
    (r : CombinedResult) (h : (transcript fs backend path).1 = Except.ok r) :
    r.text = String.join ((transcript fs backend path).2.map contribText) ∧
    (∀ call ∈ (transcript fs backend path).2,
      contribText call = " " ++ pyStrip call.response.payload.text) ∧
    (∀ call, (transcript fs backend path).2 = [call] →
      r.text = " " ++ pyStrip call.response.payload.text ∧
      r.chunks = call.response.payload.chunks ∧
      timeOffset 0 = 0) := by
  obtain ⟨htext, hchunks, hlang, hall⟩ := transcript_ok_spec fs backend path r h
  refine ⟨htext, fun call _ => rfl, ?_⟩
  intro call htrace
  refine ⟨?_, ?_, ?_⟩
  · rw [htext, htrace]
    simp only [List.map_cons, List.map_nil]
    rw [strJoinCons, strJoinNil, String.append_empty]
    rfl
  · rw [hchunks, htrace]
    simp only [List.map_cons, List.map_nil, List.flatten_cons, List.flatten_nil,
      List.append_nil]
    have hidx : call.index = 0 := by
      apply transcript_indices fs backend path 0 call
      rw [htrace]
      rfl
    simp only [contribSegs, hidx]
    exact map_offsetSegment_zero _
  · simp [timeOffset]

set_option maxRecDepth 1000000 in
/-- C4 witness: the concrete three-chunk run and its joined text. -/
theorem combined_text_witness :
    (transcript fsW backendW "talk.mp3").1 = Except.ok resW ∧
    resW.text = String.join ((transcript fsW backendW "talk.mp3").2.map contribText) :=
  ⟨by decide, (combined_text fsW backendW "talk.mp3" resW (by decide)).1⟩

/-- C9: every segment appended to the combined result comes from one recorded
backend call as `offsetSegment` of one of its returned segments, and all
fields other than the two timestamps — `text` and the opaque `extra` fields —
are passed through unmodified. -/
theorem passthrough_fields (fs : FileSystem) (backend : Backend) (path : String)
    (r : CombinedResult) (h : (transcript fs backend path).1 = Except.ok r) :
    ∀ seg ∈ r.chunks, ∃ call ∈ (transcript fs backend path).2,
      ∃ s ∈ call.response.payload.chunks,
        seg = offsetSegment (timeOffset call.index) s ∧
        seg.text = s.text ∧ seg.extra = s.extra := by
  obtain ⟨htext, hchunks, hlang, hall⟩ := transcript_ok_spec fs backend path r h
  intro seg hseg
  rw [hchunks, List.mem_flatten] at hseg
  obtain ⟨l, hl, hmem⟩ := hseg
  rw [List.mem_map] at hl
  obtain ⟨call, hcall, rfl⟩ := hl
  simp only [contribSegs, List.mem_map] at hmem
  obtain ⟨s, hs, rfl⟩ := hmem
  exact ⟨call, hcall, s, hs, rfl, rfl, rfl⟩

set_option maxRecDepth 1000000 in
/-- C9 witness: the concrete three-chunk run. -/
theorem passthrough_fields_witness :
    (transcript fsW backendW "talk.mp3").1 = Except.ok resW ∧
    ∀ seg ∈ resW.chunks, ∃ call ∈ (transcript fsW backendW "talk.mp3").2,
      ∃ s ∈ call.response.payload.chunks,
        seg = offsetSegment (timeOffset call.index) s ∧
        seg.text = s.text ∧ seg.extra = s.extra :=
  ⟨by decide, passthrough_fields fsW backendW "talk.mp3" resW (by decide)⟩

/-- C5: for every run in which each recorded call's returned segments have
non-decreasing local `start` values lying within `[0, CHUNK_DURATION_MINUTES
* 60]` seconds, a successful combined result has non-decreasing global `start`
values, matching chunk processing order. -/
theorem segments_monotone (fs : FileSystem) (backend : Backend) (path : String)
    (r : CombinedResult) (h : (transcript fs backend path).1 = Except.ok r)
    (hloc : ∀ call ∈ (transcript fs backend path).2,
      List.Pairwise (· ≤ ·) (startsOf call.response.payload.chunks) ∧
      ∀ s ∈ call.response.payload.chunks,
        0 ≤ s.timestamp.1 ∧
        s.timestamp.1 ≤ ((CHUNK_DURATION_MINUTES * 60 : Nat) : ℚ)) :
    List.Pairwise (· ≤ ·) (startsOf r.chunks) := by
  obtain ⟨hrun, htr⟩ := transcript_ok_elim fs backend path r h
  rw [htr] at hloc
  refine runChunks_sorted backend
    (split_audio (fs.audioDurationMs path) defaultChunkLengthMs) 0 ⟨"", [], "fr"⟩ r
    hrun hloc ?_ ?_
  · exact List.Pairwise.nil
  · intro x hx
    simp [startsOf] at hx

set_option maxRecDepth 1000000 in
/-- C5 witness: the concrete three-chunk run (whose calls trivially satisfy
the local sortedness hypothesis). -/
theorem segments_monotone_witness :
    (transcript fsW backendW "talk.mp3").1 = Except.ok resW ∧
    List.Pairwise (· ≤ ·) (startsOf resW.chunks) :=
  ⟨by decide, segments_monotone fsW backendW "talk.mp3" resW (by decide) (by decide)⟩

set_option maxRecDepth 1000000 in
/-- C3: the `k`-th backend call of any run is prompted with `makePrompt` of the
full text accumulated over calls `0..k-1` (so the stored context is the full
accumulated text, truncated only at use time inside `makePrompt`); for `k = 0`
the prompt is exactly the fixed preamble with no prior-text part; for `k ≥ 1`
it is the preamble, the fixed label `"Contexte précédent: "`, and the trailing
slice `previous_text[-500:]` of the accumulated text — a suffix of it of at
most 500 characters. -/
theorem context_window (fs : FileSystem) (backend : Backend) (path : String)
    (k : Nat) (call : CallRecord)
    (h : (transcript fs backend path).2[k]? = some call) :
    call.prompt = makePrompt (accumulatedText (transcript fs backend path).2 k) ∧
    (k = 0 → call.prompt = promptPreamble) ∧
    (0 < k →
      call.prompt = promptPreamble ++ "Contexte précédent: " ++
        lastChars (accumulatedText (transcript fs backend path).2 k) 500 ∧
      (lastChars (accumulatedText (transcript fs backend path).2 k) 500).data.length
        ≤ 500 ∧
      (lastChars (accumulatedText (transcript fs backend path).2 k) 500).data <:+
        (accumulatedText (transcript fs backend path).2 k).data) := by
  have hp := transcript_prompts fs backend path k call h
  have hk : k < (transcript fs backend path).2.length :=
    listGetElemSomeLt _ k call h
  refine ⟨hp, ?_, ?_⟩
  · intro hk0
    subst hk0
    rw [hp]
    have h0 : accumulatedText (transcript fs backend path).2 0 = "" := rfl
    rw [h0]
    simp [makePrompt]
  · intro hpos
    have hne := accumulatedText_ne (transcript fs backend path).2 k hpos (le_of_lt hk)
    refine ⟨?_, ?_, ?_⟩
    · rw [hp]
      simp only [makePrompt, if_neg hne]
    · show ((accumulatedText (transcript fs backend path).2 k).data.drop _).length ≤ 500
      rw [List.length_drop]
      omega
    · exact List.drop_suffix _ _

set_option maxRecDepth 1000000 in
/-- C3 witness: the second call of the concrete three-chunk run, whose prompt
is the preamble plus the label plus the trailing slice of the accumulated
text of call 0. -/
theorem context_window_witness :
    (transcript fsW backendW "talk.mp3").2[1]? = some callW1 ∧
    callW1.prompt = promptPreamble ++ "Contexte précédent: " ++
      lastChars (accumulatedText (transcript fsW backendW "talk.mp3").2 1) 500 :=
  ⟨by decide,
   ((context_window fsW backendW "talk.mp3" 1 callW1 (by decide)).2.2 (by decide)).1⟩
